import Mathlib

/-!
Verification of the windowed outlier-detection engine
(`src/outlier/director.py`, `src/outlier/sensors.py`, with the near-duplicate
variant in `src/project/director.py` and the batch variant in `src/main.py`).

The Python code is shallowly embedded:
* per-sensor buffers (`Sensor` objects holding `unixtime` / `values` /
  `anomaly` lists) become a `Sensor` structure over `Int` timestamps and
  rational values (floating point is idealised as `ℚ`, and as `ℝ` for the
  median/sqrt epsilon estimator);
* the in-place mutation of `self.temperatures` becomes explicit state passing
  on `List Sensor`;
* an exception escaping a method — the `ValueError` from `np.argmax` of an
  empty array, and the `AttributeError` raised by the tagging walk
  (`outlier/director.py` line 517 writes `t.outlier[ix] = 1`, an attribute
  the `Sensor` class of `outlier/sensors.py` never initialises; the `project`
  variant writes `t.anomaly` while `project/sensors.py` defines no flag list
  at all) — is modelled by an `Option` result being `none`.
-/

namespace OutlierDet

/-- One temperature sensor's buffered series (`outlier/sensors.py`, class
`Sensor`): parallel lists `unixtime`, `values`, `anomaly` (the anomaly flags
are the integers 0/1, modelled as `Bool`, 1 ↦ `true`).  Note the class
initialises ONLY these three attributes — in particular there is no
`self.outlier` list, although `outlier/director.py` writes and reads one. -/
structure Sensor where
  unixtime : List Int
  values   : List ℚ
  anomaly  : List Bool
deriving DecidableEq, Inhabited

/-- `Temperature.new_event_data` (`outlier/sensors.py` lines 64-66): append
the event's unixtime and value, with the anomaly flag initialised to 0. -/
def Sensor.new_event_data (s : Sensor) (ux : Int) (v : ℚ) : Sensor :=
  ⟨s.unixtime ++ [ux], s.values ++ [v], s.anomaly ++ [false]⟩

/-- The backward marking walk of `__update_outlier_triggers`
(`outlier/director.py` lines 513-518):
`ix = len(t.values)-1; while ix >= 0 and t.unixtime[ix] > tl: t.outlier[ix] = 1; ix -= 1`.
The loop body assigns to `t.outlier`, an attribute the `Sensor` class of
`outlier/sensors.py` never initialises (it has only `self.anomaly`), so the
FIRST executed body raises `AttributeError` (modelled `none`); the `project`
variant fails the same way (`project/director.py` line 427 writes
`t.anomaly` while `project/sensors.py` defines no flag list).  When the loop
guard fails immediately — no sample, or the most recent timestamp is
`≤ tl` — the walk terminates without touching the sensor.  (The store
invariant `len(unixtime) = len(values)` is assumed; with unequal lengths the
guard itself would raise `IndexError`.) -/
def Sensor.markAnomalous (s : Sensor) (tl : Int) : Option Sensor :=
  if 0 < s.values.length ∧ tl < s.unixtime.getD (s.values.length - 1) 0
  then none
  else some s

/-- `__isolate_recent_window` slicing (`outlier/director.py` lines 446-452):
`y = np.array(t.values)[(x >= tl) & (x <= tr)]; x = x[(x >= tl) & (x <= tr)]`,
i.e. keep the (timestamp, value) pairs with `tl ≤ timestamp ≤ tr`. -/
def sliceT (tl tr : Int) (s : Sensor) : List (Int × ℚ) :=
  (s.unixtime.zip s.values).filter (fun p => tl ≤ p.1 ∧ p.1 ≤ tr)

/-- One step of the window-tightening loop (`outlier/director.py` lines
470-475): `if x[0] > tl: tl = x[0]` and `if x[-1] < tr: tr = x[-1]`. -/
def tightenStep (p : Int × Int) (x : List Int) : Int × Int :=
  (if p.1 < x.headD p.1 then x.headD p.1 else p.1,
   if x.getLastD p.2 < p.2 then x.getLastD p.2 else p.2)

/-- The full tightening loop `for x in xx: ...` over all sensor slices. -/
def tighten (tl tr : Int) (xs : List (List Int)) : Int × Int :=
  xs.foldl tightenStep (tl, tr)

/-- `np.arange(tl, tr, 900)` (`outlier/director.py` line 478): the arithmetic
sequence `tl, tl+900, ...` of integers strictly below `tr`. -/
def arange900 (tl tr : Int) : List Int :=
  if tl < tr then tl :: arange900 (tl + 900) tr else []
termination_by (tr - tl).toNat
decreasing_by omega

/-- The common resample axis built for a tightened window. -/
def resampleAxis (tl tr : Int) : List Int := arange900 tl tr

/-- `scipy.interpolate.interp1d(x, y, kind='linear')` evaluated at one point,
for a sorted in-range point list: find the segment containing `t` and
interpolate linearly. -/
def interpPoint : List (Int × ℚ) → Int → ℚ
  | [], _ => 0
  | [p], _ => p.2
  | p :: q :: rest, t =>
    if t ≤ q.1 then p.2 + (q.2 - p.2) * ((t : ℚ) - (p.1 : ℚ)) / ((q.1 : ℚ) - (p.1 : ℚ))
    else interpPoint (q :: rest) t

/-- `__isolate_recent_window` (`outlier/director.py` lines 434-492): slice all
sensors to `[tl, tr]`; if any slice has fewer than 2 samples return the
failure flag (`None, None, False`); otherwise tighten the window over the
slice timestamps and return the tightened bounds together with the slices. -/
def isolate_recent_window (tl tr : Int) (store : List Sensor) :
    Option (Int × Int × List (List (Int × ℚ))) :=
  let slices := store.map (sliceT tl tr)
  if slices.any (fun sl => sl.length < 2) then none
  else
    let p := tighten tl tr (slices.map (fun sl => sl.map Prod.fst))
    some (p.1, p.2, slices)

/-- `labels[labels >= 0]` (`outlier/director.py` line 507), with the
non-negative labels converted to `ℕ`. -/
def nonnegLabels (labels : List Int) : List Nat :=
  (labels.filter (fun l => 0 ≤ l)).map Int.toNat

/-- `np.bincount`: for a non-empty list of naturals, the list of occurrence
counts of `0, 1, ..., max`; for the empty list, the empty array. -/
def bincount (l : List Nat) : List Nat :=
  match l with
  | [] => []
  | _ => (List.range (l.foldr max 0 + 1)).map (fun v => l.count v)

/-- `np.argmax`: the first index at which a list attains its maximum.
`np.argmax` of an empty array raises `ValueError`, modelled as `none`. -/
def npArgmax (l : List Nat) : Option Nat :=
  match l with
  | [] => none
  | _ => some (l.indexOf (l.foldr max 0))

/-- The tagging loop of `__update_outlier_triggers` (lines 510-518): for each
sensor `i`, if `labels[i] != imax or labels[i] < 0`, run the backward
marking walk from `tl`.  Since the walk raises `AttributeError` whenever it
visits at least one sample, the loop aborts at the first such sensor
(`none`), and later sensors are never processed. -/
def tagLoop (tl imax : Int) : List Sensor → List Int → Option (List Sensor)
  | t :: ts, l :: ls =>
      if l ≠ imax ∨ l < 0 then
        match t.markAnomalous tl with
        | none => none
        | some t' => (tagLoop tl imax ts ls).map (fun r => t' :: r)
      else (tagLoop tl imax ts ls).map (fun r => t :: r)
  | ts, [] => some ts
  | [], _ => some []

/-- `__update_outlier_triggers(labels, tl)` (`outlier/director.py` lines
494-518): compute `imax = np.argmax(np.bincount(labels[labels >= 0]))` and
run the tagging loop.  When every label is negative the `np.argmax` call
raises `ValueError` (`none`); when the tagging loop reaches a marked sample
its walk raises `AttributeError` (`none`). -/
def update_outlier_triggers (labels : List Int) (tl : Int) (store : List Sensor) :
    Option (List Sensor) :=
  match npArgmax (bincount (nonnegLabels labels)) with
  | none => none
  | some imax => tagLoop tl (imax : Int) store labels

/-- `max([t.unixtime[0] for t in self.temperatures])` (`outlier/director.py`
line 412); Python's `max` of an empty sequence raises (`none`). -/
def maxFirstUx (store : List Sensor) : Option Int :=
  match store.map (fun t => t.unixtime.headD 0) with
  | [] => none
  | u :: us => some (us.foldl max u)

/-- `__cluster(ux_now)` (`outlier/director.py` lines 395-430): the detection
cycle.  The external DBSCAN capability is a parameter `db` producing one label
per feature-matrix row.  Result: `some (store', ran)` where `ran` records
whether clustering was reached, or `none` when an uncaught exception escapes
(empty `max`, or the all-noise `np.argmax` crash). -/
def clusterCycle (db : List (List ℚ) → List Int) (window : Int)
    (store : List Sensor) (uxNow : Int) : Option (List Sensor × Bool) :=
  if store.any (fun t => t.unixtime.length < 1) then some (store, false) else
  match maxFirstUx store with
  | none => none
  | some firstEventUx =>
    if uxNow - firstEventUx < window then some (store, false) else
    let tl := uxNow - window
    let tr := uxNow
    match isolate_recent_window tl tr store with
    | none => some (store, false)
    | some (tl', tr', slices) =>
      let rex := resampleAxis tl' tr'
      let rey := slices.map (fun sl => rex.map (fun p => interpPoint sl p))
      match update_outlier_triggers (db rey) tl store with
      | none => none
      | some store' => some (store', true)

/-- The elapsed-time gate's state: `self.last_update`, initialised to `-1`
(`outlier/director.py` line 53). -/
structure Gate where
  last_update : Int
deriving DecidableEq, Inhabited

/-- The gate before the first check. -/
def initGate : Gate := ⟨-1⟩

/-- `__check_timestep(unixtime)` (`outlier/director.py` lines 366-392):
uninitialised (`last_update < 0`) records the time and does not trigger;
armed triggers exactly when `unixtime - last_update > timestep`, resetting
`last_update`; otherwise (falling off the `elif`) nothing changes. -/
def check_timestep (T : Int) (g : Gate) (now : Int) : Gate × Bool :=
  if g.last_update < 0 then (⟨now⟩, false)
  else if T < now - g.last_update then (⟨now⟩, true)
  else (g, false)

/-- The gate's answers over a sequence of checks. -/
def gateStepsAux (T : Int) (g : Gate) : List Int → List Bool
  | [] => []
  | n :: ns =>
    (check_timestep T g n).2 :: gateStepsAux T (check_timestep T g n).1 ns

/-- The trigger decisions over a run of checks starting from the fresh gate. -/
def gateFires (T : Int) (nows : List Int) : List Bool :=
  gateStepsAux T initGate nows

/-- One buffered historic event, with the target sensor resolved to its index
in `self.temperatures` (`self.sensor_ids`). -/
structure HistEvent where
  ux  : Int
  idx : Nat
  val : ℚ
deriving DecidableEq, Inhabited

/-- `__new_event_data` (`outlier/director.py` lines 168-196): serve the event
to the matching sensor; unknown identifiers are dropped. -/
def ingestEvent (e : HistEvent) (store : List Sensor) : List Sensor :=
  store.set e.idx ((store.getD e.idx default).new_event_data e.ux e.val)

/-- The catch-up loop of `run_history` (`outlier/director.py` lines 285-290):
`while i < n_events and event_history_unixtime[i] < unix_now: serve; i += 1`,
phrased on the not-yet-ingested suffix of the sorted event history. -/
def catchUp (now : Int) : List HistEvent → List Sensor → List HistEvent × List Sensor
  | [], store => ([], store)
  | e :: rest, store =>
      if e.ux < now then catchUp now rest (ingestEvent e store)
      else (e :: rest, store)

/-- One tick of the simulated clock in `run_history` (lines 276-297): catch up
on due events, then check the elapsed-time gate, and if it fires run a
detection cycle at `ux_now = now`. -/
def replayTick (T window : Int) (db : List (List ℚ) → List Int)
    (events : List HistEvent) (store : List Sensor) (g : Gate) (now : Int) :
    Option (List HistEvent × List Sensor × Gate) :=
  let p := catchUp now events store
  let q := check_timestep T g now
  if q.2 then (clusterCycle db window p.2 now).map (fun r => (p.1, r.1, q.1))
  else some (p.1, p.2, q.1)

/-- The store-mutating operations of a run: event ingestion targeted at one
sensor, and a detection cycle (with its external DBSCAN capability). -/
inductive EngineOp where
  | ingest (idx : Nat) (ux : Int) (v : ℚ)
  | detect (db : List (List ℚ) → List Int) (window uxNow : Int)

/-- Apply one engine operation to the store. -/
def applyOp (store : List Sensor) : EngineOp → Option (List Sensor)
  | .ingest idx ux v => some (ingestEvent ⟨ux, idx, v⟩ store)
  | .detect db w now => (clusterCycle db w store now).map Prod.fst

/-- Run a sequence of engine operations. -/
def runOps (store : List Sensor) : List EngineOp → Option (List Sensor)
  | [] => some store
  | op :: ops =>
    match applyOp store op with
    | none => none
    | some store' => runOps store' ops

/-- `np.median` of a 1-d array: sort; middle element for odd length, mean of
the two middle elements for even length. -/
noncomputable def npMedian (l : List ℝ) : ℝ :=
  let s := l.insertionSort (· ≤ ·)
  if l.length % 2 = 1 then s.getD (l.length / 2) 0
  else (s.getD (l.length / 2 - 1) 0 + s.getD (l.length / 2) 0) / 2

/-- `np.median(x, axis=0)` for a matrix given as a list of rows: the
column-wise median (number of columns taken from the first row). -/
noncomputable def colMedian (X : List (List ℝ)) : List ℝ :=
  (List.range (X.headD []).length).map
    (fun k => npMedian (X.map (fun y => y.getD k 0)))

/-- `__dynamic_epsilon(x)` (`outlier/director.py` lines 521-546): the median
over all rows `y` of the Euclidean distance
`sqrt(sum((y[i]-m[i])**2 for i in range(len(y))))` to the column-wise
median `m`. -/
noncomputable def dynamic_epsilon (X : List (List ℝ)) : ℝ :=
  let m := colMedian X
  npMedian (X.map (fun y =>
    Real.sqrt (((List.range y.length).map
      (fun i => (y.getD i 0 - m.getD i 0) ^ 2)).sum)))

/-- `prm.threshold_modifier` (`config/parameters.py`): 2. -/
def threshold_modifier : ℝ := 2

/-- The `eps` value passed to `DBSCAN` (`outlier/director.py` line 427):
`self.__dynamic_epsilon(rey) * prm.threshold_modifier`. -/
noncomputable def clusterEps (X : List (List ℝ)) : ℝ :=
  dynamic_epsilon X * threshold_modifier

/-- Modelled from the spec (§4.4): the clustering radius is the configured
scale factor times the median over sensors of the Euclidean distance, over all
columns, between the sensor's row and the column-wise median trace. -/
noncomputable def specClusteringRadius (X : List (List ℝ)) : ℝ :=
  let m := colMedian X
  threshold_modifier * npMedian (X.map (fun y =>
    Real.sqrt (((List.range m.length).map
      (fun k => (y.getD k 0 - m.getD k 0) ^ 2)).sum)))

/-! ### Shared lemmas about the resample axis -/

lemma arange900_eq (tl tr : Int) :
    arange900 tl tr = if tl < tr then tl :: arange900 (tl + 900) tr else [] := by
  rw [arange900]

lemma mem_arange900_aux (n : ℕ) : ∀ tl p : Int, ∀ tr : Int, (tr - tl).toNat ≤ n →
    (p ∈ arange900 tl tr ↔ ∃ k : ℕ, p = tl + 900 * k ∧ p < tr) := by
  induction n with
  | zero =>
    intro tl p tr h
    rw [arange900_eq]
    have hnlt : ¬ tl < tr := by omega
    simp only [hnlt, if_false, List.not_mem_nil, false_iff, not_exists]
    rintro k ⟨rfl, hk⟩
    have : (0:Int) ≤ 900 * k := by positivity
    omega
  | succ n ih =>
    intro tl p tr h
    rw [arange900_eq]
    by_cases hlt : tl < tr
    · simp only [hlt, if_true, List.mem_cons]
      rw [ih (tl + 900) p tr (by omega)]
      constructor
      · rintro (rfl | ⟨k, rfl, hk⟩)
        · exact ⟨0, by ring, hlt⟩
        · exact ⟨k + 1, by push_cast; ring, hk⟩
      · rintro ⟨k, rfl, hk⟩
        cases k with
        | zero => left; simp
        | succ k => right; exact ⟨k, by push_cast; ring, hk⟩
    · simp only [hlt, if_false, List.not_mem_nil, false_iff, not_exists]
      rintro k ⟨rfl, hk⟩
      have : (0:Int) ≤ 900 * k := by positivity
      omega

lemma mem_arange900 (tl tr p : Int) :
    p ∈ arange900 tl tr ↔ ∃ k : ℕ, p = tl + 900 * k ∧ p < tr :=
  mem_arange900_aux (tr - tl).toNat tl p tr le_rfl

lemma arange900_bounds {tl tr p : Int} (h : p ∈ arange900 tl tr) :
    tl ≤ p ∧ p < tr := by
  obtain ⟨k, rfl, hk⟩ := (mem_arange900 tl tr _).1 h
  have : (0:Int) ≤ 900 * k := by positivity
  omega

/-! ### Shared lemmas about the tightening loop -/

lemma headD_of_ne_nil {l : List Int} (h : l ≠ []) (a b : Int) :
    l.headD a = l.headD b := by
  cases l with
  | nil => exact absurd rfl h
  | cons x xs => rfl

lemma getLastD_of_ne_nil {l : List Int} (h : l ≠ []) (a b : Int) :
    l.getLastD a = l.getLastD b := by
  rw [List.getLastD_eq_getLast?, List.getLastD_eq_getLast?,
    List.getLast?_eq_getLast l h]
  rfl

lemma tightenStep_fst_le (p : Int × Int) (x : List Int) :
    p.1 ≤ (tightenStep p x).1 ∧ (tightenStep p x).2 ≤ p.2 := by
  simp only [tightenStep]
  constructor <;> split <;> omega

lemma tighten_foldl_le (xs : List (List Int)) : ∀ p : Int × Int,
    p.1 ≤ (xs.foldl tightenStep p).1 ∧ (xs.foldl tightenStep p).2 ≤ p.2 := by
  induction xs with
  | nil => intro p; exact ⟨le_rfl, le_rfl⟩
  | cons x xs ih =>
    intro p
    have h1 := tightenStep_fst_le p x
    have h2 := ih (tightenStep p x)
    simp only [List.foldl_cons]
    exact ⟨le_trans h1.1 h2.1, le_trans h2.2 h1.2⟩

lemma tighten_of_mem (xs : List (List Int)) : ∀ (p : Int × Int) (x : List Int),
    x ∈ xs → x ≠ [] →
    x.headD 0 ≤ (xs.foldl tightenStep p).1 ∧
    (xs.foldl tightenStep p).2 ≤ x.getLastD 0 := by
  induction xs with
  | nil => intro p x hx; cases hx
  | cons a as ih =>
    intro p x hx hne
    rcases List.mem_cons.1 hx with rfl | hx
    · have hstep1 : x.headD 0 ≤ (tightenStep p x).1 := by
        rw [headD_of_ne_nil hne 0 p.1]
        simp only [tightenStep]
        split <;> omega
      have hstep2 : (tightenStep p x).2 ≤ x.getLastD 0 := by
        rw [getLastD_of_ne_nil hne 0 p.2]
        simp only [tightenStep]
        split <;> omega
      have h2 := tighten_foldl_le as (tightenStep p x)
      simp only [List.foldl_cons]
      exact ⟨le_trans hstep1 h2.1, le_trans h2.2 hstep2⟩
    · simpa only [List.foldl_cons] using ih (tightenStep p a) x hx hne

lemma headD_eq_head {α} (l : List α) (h : l ≠ []) (d : α) : l.headD d = l.head h := by
  cases l with
  | nil => exact absurd rfl h
  | cons x xs => rfl

lemma getLastD_eq_getLast {α} (l : List α) (h : l ≠ []) (d : α) :
    l.getLastD d = l.getLast h := by
  rw [List.getLastD_eq_getLast?, List.getLast?_eq_getLast _ h]
  rfl

lemma head?_getLast?_of_ne_nil {α} (l : List α) (h : l ≠ []) :
    l.head? = some (l.head h) ∧ l.getLast? = some (l.getLast h) := by
  cases l with
  | nil => exact absurd rfl h
  | cons x xs => exact ⟨rfl, List.getLast?_eq_getLast _ _⟩

/-- C2: for every detection cycle that reaches the tightening step (i.e. the
window extractor succeeds), every sensor's slice starts at or before the
tightened left bound `tl'` and ends at or after the tightened right bound
`tr'`, so every point of the resample axis (which lives in `[tl', tr')`) lies
inside every sensor's data range: interpolation never extrapolates. -/
theorem tightening_no_extrapolation
    (tl tr : Int) (store : List Sensor) (tl' tr' : Int)
    (slices : List (List (Int × ℚ)))
    (h : isolate_recent_window tl tr store = some (tl', tr', slices)) :
    ∀ sl ∈ slices, ∃ t0 tN : Int,
      (sl.map Prod.fst).head? = some t0 ∧
      (sl.map Prod.fst).getLast? = some tN ∧
      t0 ≤ tl' ∧ tr' ≤ tN ∧
      ∀ p ∈ resampleAxis tl' tr', t0 ≤ p ∧ p ≤ tN := by
  simp only [isolate_recent_window] at h
  by_cases hany : (store.map (sliceT tl tr)).any (fun sl => sl.length < 2)
  · rw [if_pos hany] at h
    exact absurd h (by simp)
  · rw [if_neg hany] at h
    simp only [Option.some.injEq, Prod.mk.injEq] at h
    obtain ⟨h1, h2, h3⟩ := h
    intro sl hsl
    rw [← h3] at hsl
    have hlen : ¬ sl.length < 2 := by
      intro hcon
      exact hany (List.any_eq_true.mpr ⟨sl, hsl, by simpa using hcon⟩)
    have hne : (sl.map Prod.fst) ≠ [] := by
      simp only [ne_eq, List.map_eq_nil_iff]
      intro hcon; rw [hcon] at hlen; simp at hlen
    obtain ⟨hh, hl⟩ := head?_getLast?_of_ne_nil (sl.map Prod.fst) hne
    have hbound := tighten_of_mem ((store.map (sliceT tl tr)).map (fun sl => sl.map Prod.fst))
      (tl, tr) (sl.map Prod.fst) (List.mem_map.mpr ⟨sl, hsl, rfl⟩) hne
    rw [headD_eq_head (sl.map Prod.fst) hne 0,
      getLastD_eq_getLast (sl.map Prod.fst) hne 0] at hbound
    rw [tighten] at h1 h2
    rw [h1] at hbound
    rw [h2] at hbound
    refine ⟨(sl.map Prod.fst).head hne, (sl.map Prod.fst).getLast hne, hh, hl,
      hbound.1, hbound.2, ?_⟩
    intro p hp
    have hb := arange900_bounds hp
    exact ⟨le_trans hbound.1 hb.1, le_trans (le_of_lt hb.2) hbound.2⟩

/-- Demonstration store: two sensors whose data ranges barely overlap inside
the requested window. -/
def demoStoreA : List Sensor :=
  [⟨[0, 10, 100], [1, 1, 1], [false, false, false]⟩,
   ⟨[0, 1900, 1910], [2, 2, 2], [false, false, false]⟩]

/-- The slices of `demoStoreA` over the window `[0, 2000]`. -/
def demoSlicesA : List (List (Int × ℚ)) :=
  [[(0, 1), (10, 1), (100, 1)], [(0, 2), (1900, 2), (1910, 2)]]

/-- Witness for C2 at a concrete input: on `demoStoreA` the extractor tightens
`[0, 2000]` to `[0, 100]` and the first sensor's slice brackets the tightened
window. -/
theorem tightening_no_extrapolation_witness :
    ∃ t0 tN : Int,
      (([((0 : Int), (1 : ℚ)), (10, 1), (100, 1)]).map Prod.fst).head? = some t0 ∧
      (([((0 : Int), (1 : ℚ)), (10, 1), (100, 1)]).map Prod.fst).getLast? = some tN ∧
      t0 ≤ 0 ∧ 100 ≤ tN ∧
      ∀ p ∈ resampleAxis 0 100, t0 ≤ p ∧ p ≤ tN :=
  tightening_no_extrapolation 0 2000 demoStoreA 0 100 demoSlicesA (by decide)
    [((0 : Int), (1 : ℚ)), (10, 1), (100, 1)] (by decide)

/-- C4: code-bug evidence.  When every sensor is labelled noise, the
director's tagging step crashes: `labels[labels >= 0]` is empty, so
`np.bincount` returns an empty array and `np.argmax` raises `ValueError`
(modelled as `none`), contradicting the requirement that the engine must not
crash on the all-noise edge case. -/
theorem all_noise_tagging_crashes :
    update_outlier_triggers [-1, -1] 0
      [⟨[10], [1], [false]⟩, ⟨[20], [2], [false]⟩] = none := by decide

/-- C6: whenever some sensor's slice of the window `[ux_now - window, ux_now]`
has fewer than 2 samples, the whole detection cycle is a no-op: the store is
returned unchanged and clustering is never invoked. -/
theorem cycle_insufficient_data
    (db : List (List ℚ) → List Int) (window uxNow : Int) (store : List Sensor)
    (h : ∃ t ∈ store, (sliceT (uxNow - window) uxNow t).length < 2) :
    clusterCycle db window store uxNow = some (store, false) := by
  obtain ⟨t, ht, hlen⟩ := h
  have hany : (store.map (sliceT (uxNow - window) uxNow)).any
      (fun sl => sl.length < 2) = true :=
    List.any_eq_true.mpr ⟨sliceT (uxNow - window) uxNow t,
      List.mem_map.mpr ⟨t, ht, rfl⟩, by simpa using hlen⟩
  have hiso : isolate_recent_window (uxNow - window) uxNow store = none := by
    unfold isolate_recent_window
    simp only [hany, if_true]
  rcases store with _ | ⟨s0, rest⟩
  · cases ht
  · unfold clusterCycle
    split
    · rfl
    · simp only [maxFirstUx, List.map_cons]
      split
      · rfl
      · rw [hiso]

/-- Witness for C6 at a concrete input: a sensor with no sample inside the
window `[900, 1000]` makes the cycle a no-op. -/
theorem cycle_insufficient_data_witness :
    (∃ t ∈ [(⟨[0], [5], [false]⟩ : Sensor)],
      (sliceT (1000 - 100) 1000 t).length < 2) ∧
    clusterCycle (fun _ => []) 100 [⟨[0], [5], [false]⟩] 1000 =
      some ([⟨[0], [5], [false]⟩], false) :=
  ⟨by decide,
   cycle_insufficient_data (fun _ => []) 100 1000 [⟨[0], [5], [false]⟩] (by decide)⟩

/-- Counterexample to C7's abort clause: on `demoStoreA` the window
`[0, 2000]` tightens to `[0, 100]`, whose resample axis has a single point
(fewer than 2), yet the extractor succeeds and the detection cycle proceeds
to interpolation and clustering (`ran = true`) instead of aborting with
`InsufficientData`. -/
lemma resampleAxis_zero_hundred : resampleAxis 0 100 = [0] := by
  rw [resampleAxis, arange900_eq, if_pos (by norm_num), arange900_eq,
    if_neg (by norm_num)]

theorem short_axis_no_abort_counterexample :
    isolate_recent_window 0 2000 demoStoreA = some (0, 100, demoSlicesA) ∧
    (resampleAxis 0 100).length < 2 ∧
    clusterCycle (fun _ => [0, 0]) 2000 demoStoreA 2000 = some (demoStoreA, true) :=
  ⟨by decide, by rw [resampleAxis_zero_hundred]; norm_num, by decide⟩

/-- C7 (amended): the resample axis built for a tightened window `(tl, tr)`
is exactly the arithmetic sequence `tl, tl + 900, ...` with exclusive upper
bound `tr` (Python `range(tl, tr, 900)` semantics); and the engine performs
no axis-length check: whenever every sensor's slice has at least 2 samples,
the extractor succeeds (and the cycle proceeds to interpolation and
clustering) regardless of how short the axis is. -/
theorem resample_axis_range_and_no_length_check :
    (∀ tl tr p : Int,
      p ∈ resampleAxis tl tr ↔ ∃ k : ℕ, p = tl + 900 * k ∧ p < tr) ∧
    (∀ tl tr : Int, ∀ store : List Sensor,
      (∀ t ∈ store, 2 ≤ (sliceT tl tr t).length) →
      isolate_recent_window tl tr store =
        some ((tighten tl tr
                ((store.map (sliceT tl tr)).map (fun sl => sl.map Prod.fst))).1,
              (tighten tl tr
                ((store.map (sliceT tl tr)).map (fun sl => sl.map Prod.fst))).2,
              store.map (sliceT tl tr))) := by
  constructor
  · exact mem_arange900
  · intro tl tr store hall
    have hany : ((store.map (sliceT tl tr)).any (fun sl => sl.length < 2)) = false := by
      rw [List.any_eq_false]
      intro sl hsl
      obtain ⟨t, ht, rfl⟩ := List.mem_map.mp hsl
      simpa using not_lt.mpr (hall t ht)
    simp only [isolate_recent_window, hany, Bool.false_eq_true, if_false]

/-- Witness for the amended C7 at concrete inputs. -/
theorem resample_axis_range_witness :
    ((900 : Int) ∈ resampleAxis 0 1000 ↔
      ∃ k : ℕ, (900 : Int) = 0 + 900 * k ∧ (900 : Int) < 1000) ∧
    isolate_recent_window 0 2000 demoStoreA = some (0, 100, demoSlicesA) := by
  refine ⟨resample_axis_range_and_no_length_check.1 0 1000 900, ?_⟩
  rw [resample_axis_range_and_no_length_check.2 0 2000 demoStoreA (by decide)]
  decide

/-! ### The elapsed-time gate (C5) -/

lemma check_timestep_armed (T : Int) (g : Gate) (now : Int)
    (h : 0 ≤ g.last_update) :
    check_timestep T g now =
      if T < now - g.last_update then (⟨now⟩, true) else (g, false) := by
  unfold check_timestep
  rw [if_neg (by omega)]

lemma check_fire_true {T : Int} {g : Gate} {now : Int}
    (h : (check_timestep T g now).2 = true) :
    0 ≤ g.last_update ∧ T < now - g.last_update ∧
      (check_timestep T g now).1 = ⟨now⟩ := by
  unfold check_timestep at *
  by_cases h1 : g.last_update < 0
  · rw [if_pos h1] at h; simp at h
  · rw [if_neg h1] at *
    by_cases h2 : T < now - g.last_update
    · rw [if_pos h2] at *; exact ⟨by omega, h2, rfl⟩
    · rw [if_neg h2] at h; simp at h

lemma check_no_fire_armed {T : Int} {g : Gate} {now : Int}
    (harm : 0 ≤ g.last_update) (h : (check_timestep T g now).2 = false) :
    (check_timestep T g now).1 = g := by
  unfold check_timestep at *
  rw [if_neg (by omega)] at *
  by_cases h2 : T < now - g.last_update
  · rw [if_pos h2] at h; simp at h
  · rw [if_neg h2]

lemma gate_fire_gap (T : Int) (hT : 0 ≤ T) :
    ∀ (ns : List Int) (g : Gate), 0 ≤ g.last_update →
    (∀ x, ns.head? = some x → g.last_update ≤ x) →
    List.Chain' (· ≤ ·) ns →
    ∀ j, (gateStepsAux T g ns).get? j = some true →
      ∃ nj, ns.get? j = some nj ∧ T < nj - g.last_update := by
  intro ns
  induction ns with
  | nil => intro g _ _ _ j hj; simp [gateStepsAux] at hj
  | cons n ns ih =>
    intro g harm hhead hch j hj
    cases j with
    | zero =>
      simp only [gateStepsAux, List.get?_cons_zero, Option.some.injEq] at hj
      obtain ⟨_, hTlt, _⟩ := check_fire_true hj
      exact ⟨n, rfl, hTlt⟩
    | succ j' =>
      simp only [gateStepsAux, List.get?_cons_succ] at hj
      have hgn : g.last_update ≤ n := hhead n rfl
      by_cases hf : (check_timestep T g n).2 = true
      · obtain ⟨h0, hTlt, hg'⟩ := check_fire_true hf
        rw [hg'] at hj
        have hrec := ih ⟨n⟩ (by simp only []; omega)
          (fun x hx => by
            have := (List.chain'_cons'.mp hch).1 x (by simpa using hx)
            simpa using this)
          (List.chain'_cons'.mp hch).2 j' hj
        obtain ⟨nj, hnj, hgap⟩ := hrec
        refine ⟨nj, by simpa using hnj, ?_⟩
        simp only [] at hgap
        omega
      · have hg' := check_no_fire_armed harm (Bool.eq_false_iff.mpr hf)
        rw [hg'] at hj
        have hrec := ih g harm
          (fun x hx => by
            have := (List.chain'_cons'.mp hch).1 x (by simpa using hx)
            omega)
          (List.chain'_cons'.mp hch).2 j' hj
        obtain ⟨nj, hnj, hgap⟩ := hrec
        exact ⟨nj, by simpa using hnj, hgap⟩

lemma gate_fires_sep (T : Int) (hT : 0 ≤ T) :
    ∀ (ns : List Int) (g : Gate), List.Chain' (· ≤ ·) ns →
    ∀ i j, i < j →
    (gateStepsAux T g ns).get? i = some true →
    (gateStepsAux T g ns).get? j = some true →
    ∃ ni nj, ns.get? i = some ni ∧ ns.get? j = some nj ∧ T < nj - ni := by
  intro ns
  induction ns with
  | nil => intro g _ i j _ hi; simp [gateStepsAux] at hi
  | cons n ns ih =>
    intro g hch i j hij hi hj
    cases i with
    | zero =>
      simp only [gateStepsAux, List.get?_cons_zero, Option.some.injEq] at hi
      obtain ⟨h0, hTlt, hg'⟩ := check_fire_true hi
      obtain ⟨j', rfl⟩ : ∃ j', j = j' + 1 := ⟨j - 1, by omega⟩
      simp only [gateStepsAux, List.get?_cons_succ] at hj
      rw [hg'] at hj
      have hrec := gate_fire_gap T hT ns ⟨n⟩ (by simp only []; omega)
        (fun x hx => by
          have := (List.chain'_cons'.mp hch).1 x (by simpa using hx)
          simpa using this)
        (List.chain'_cons'.mp hch).2 j' hj
      obtain ⟨nj, hnj, hgap⟩ := hrec
      refine ⟨n, nj, rfl, by simpa using hnj, ?_⟩
      simp only [] at hgap
      omega
    | succ i' =>
      obtain ⟨j', rfl⟩ : ∃ j', j = j' + 1 := ⟨j - 1, by omega⟩
      simp only [gateStepsAux, List.get?_cons_succ] at hi hj
      have hrec := ih (check_timestep T g n).1 (List.chain'_cons'.mp hch).2
        i' j' (by omega) hi hj
      obtain ⟨ni, nj, h1, h2, h3⟩ := hrec
      exact ⟨ni, nj, by simpa using h1, by simpa using h2, h3⟩

/-- C5: for a gate with configured timestep `T ≥ 0` and non-decreasing check
times: (1) the very first check after initialisation never triggers and only
records `last_update`; (2) an armed check triggers exactly when
`now - last_update > T`, and then resets `last_update = now`; (3) over any
run of checks from the fresh gate, any two triggering checks are separated by
strictly more than `T` seconds of "now" advancement. -/
theorem check_timestep_gate
    (T : Int) (hT : 0 ≤ T) (nows : List Int)
    (hmono : List.Chain' (· ≤ ·) nows) :
    (∀ now : Int, check_timestep T initGate now = (⟨now⟩, false)) ∧
    (∀ (g : Gate) (now : Int), 0 ≤ g.last_update →
      check_timestep T g now =
        if T < now - g.last_update then (⟨now⟩, true) else (g, false)) ∧
    (∀ i j, i < j →
      (gateFires T nows).get? i = some true →
      (gateFires T nows).get? j = some true →
      ∃ ni nj, nows.get? i = some ni ∧ nows.get? j = some nj ∧ T < nj - ni) := by
  refine ⟨?_, fun g now h => check_timestep_armed T g now h,
    fun i j => gate_fires_sep T hT nows initGate hmono i j⟩
  intro now
  unfold check_timestep initGate
  rw [if_pos (by norm_num)]

/-- Witness for C5 at concrete inputs (`T = 10`,
checks at `0, 5, 20, 25, 31`; the fires are at indices 2 and 4). -/
theorem check_timestep_gate_witness :
    check_timestep 10 initGate 7 = (⟨7⟩, false) ∧
    check_timestep 10 ⟨0⟩ 20 = (⟨20⟩, true) ∧
    (∃ ni nj, [(0 : Int), 5, 20, 25, 31].get? 2 = some ni ∧
      [(0 : Int), 5, 20, 25, 31].get? 4 = some nj ∧ (10 : Int) < nj - ni) := by
  obtain ⟨h1, h2, h3⟩ := check_timestep_gate 10 (by decide)
    [0, 5, 20, 25, 31] (by norm_num [List.chain'_cons])
  refine ⟨h1 7, ?_, h3 2 4 (by decide) (by decide) (by decide)⟩
  rw [h2 ⟨0⟩ 20 (by decide)]
  decide

/-! ### Historic replay ingestion (C8) -/

lemma catchUp_sorted (now : Int) :
    ∀ (events : List HistEvent) (store : List Sensor),
    List.Pairwise (fun a b => a.ux ≤ b.ux) events →
    catchUp now events store =
      (events.filter (fun e => ¬ e.ux < now),
       (events.filter (fun e => e.ux < now)).foldl
         (fun s e => ingestEvent e s) store) := by
  intro events
  induction events with
  | nil => intro store _; rfl
  | cons e rest ih =>
    intro store hp
    obtain ⟨hhead, htail⟩ := List.pairwise_cons.mp hp
    by_cases he : e.ux < now
    · rw [List.filter_cons_of_neg (by simpa using he),
        List.filter_cons_of_pos (by simpa using he)]
      simp only [catchUp, if_pos he, List.foldl_cons]
      exact ih (ingestEvent e store) htail
    · rw [List.filter_cons_of_pos (by simpa using he),
        List.filter_cons_of_neg (by simpa using he)]
      simp only [catchUp, if_neg he]
      have h1 : rest.filter (fun e => ¬ e.ux < now) = rest :=
        List.filter_eq_self.mpr (fun x hx => by
          have := hhead x hx
          simp only [decide_eq_true_eq]
          omega)
      have h2 : rest.filter (fun e => e.ux < now) = [] :=
        List.filter_eq_nil_iff.mpr (fun x hx => by
          have := hhead x hx
          simp only [decide_eq_true_eq]
          omega)
      rw [h1, h2]
      rfl

/-- Counterexample to C8 as stated: at the tick with `now = 5`, the buffered
event with timestamp exactly `5` (so `timestamp ≤ now`) is NOT ingested — the
replay loop uses the strict comparison `event_time < unix_now` — and the
store is unchanged. -/
theorem replay_tick_boundary_counterexample :
    replayTick 100 10 (fun _ => []) [⟨5, 0, 1⟩] [⟨[], [], []⟩] ⟨0⟩ 5 =
      some ([⟨5, 0, 1⟩], [⟨[], [], []⟩], ⟨0⟩) ∧ (5 : Int) ≤ 5 :=
  ⟨by decide, le_refl 5⟩

/-- C8 (amended): at every tick of the historic replay, the events ingested
(in buffer order, before the elapsed-time gate is evaluated and before any
detection cycle) are exactly the buffered events with timestamp strictly
before `now`; events with timestamp `≥ now` (including `= now`) stay
buffered for a later tick. -/
theorem replay_tick_ingests_strictly_due
    (T window : Int) (db : List (List ℚ) → List Int)
    (events : List HistEvent) (store : List Sensor) (g : Gate) (now : Int)
    (hsort : List.Pairwise (fun a b => a.ux ≤ b.ux) events) :
    replayTick T window db events store g now =
      (let due := events.filter (fun e => e.ux < now)
       let store' := due.foldl (fun s e => ingestEvent e s) store
       let rem := events.filter (fun e => ¬ e.ux < now)
       let q := check_timestep T g now
       if q.2 then
         (clusterCycle db window store' now).map (fun r => (rem, r.1, q.1))
       else some (rem, store', q.1)) := by
  simp only [replayTick, catchUp_sorted now events store hsort]

/-- Witness for the amended C8 at a concrete input: of the two buffered
events at times 1 and 7, the tick at `now = 5` ingests exactly the first. -/
theorem replay_tick_ingests_witness :
    replayTick 100 10 (fun _ => []) [⟨1, 0, 1⟩, ⟨7, 0, 2⟩]
      [⟨[], [], []⟩] ⟨0⟩ 5 =
      some ([⟨7, 0, 2⟩], [⟨[1], [1], [false]⟩], ⟨0⟩) := by
  rw [replay_tick_ingests_strictly_due 100 10 (fun _ => []) _ _ _ 5
    (by norm_num [List.pairwise_cons])]
  decide

/-! ### Majority computation and tagging (C1) -/

lemma le_foldr_max (l : List Nat) : ∀ v ∈ l, v ≤ l.foldr max 0 := by
  induction l with
  | nil => intro v hv; cases hv
  | cons a t ih =>
    intro v hv
    rcases List.mem_cons.mp hv with rfl | hv
    · exact le_max_left _ _
    · exact le_trans (ih v hv) (le_max_right _ _)

lemma foldr_max_mem (l : List Nat) (h : l ≠ []) : l.foldr max 0 ∈ l := by
  induction l with
  | nil => exact absurd rfl h
  | cons a t ih =>
    cases t with
    | nil => simp
    | cons b t' =>
      rw [List.foldr_cons]
      by_cases hab : List.foldr max 0 (b :: t') ≤ a
      · rw [max_eq_left hab]
        exact List.mem_cons_self _ _
      · rw [max_eq_right (le_of_not_le hab)]
        exact List.mem_cons_of_mem _ (ih (by simp))

lemma count_nonnegLabels (labels : List Int) (v : Nat) :
    (nonnegLabels labels).count v = labels.count (v : Int) := by
  induction labels with
  | nil => rfl
  | cons a t ih =>
    by_cases ha : 0 ≤ a
    · have hc : nonnegLabels (a :: t) = a.toNat :: nonnegLabels t := by
        simp [nonnegLabels, List.filter_cons, ha]
      by_cases hv : a = (v : Int)
      · have hvn : a.toNat = v := by omega
        rw [hc, hvn, hv, List.count_cons_self, List.count_cons_self, ih]
      · have hvn : a.toNat ≠ v := by omega
        rw [hc, List.count_cons_of_ne (by omega) , List.count_cons_of_ne (by omega), ih]
    · have hc : nonnegLabels (a :: t) = nonnegLabels t := by
        simp [nonnegLabels, List.filter_cons, ha]
      rw [hc, List.count_cons_of_ne (by omega), ih]

lemma bincount_ne_nil {l : List Nat} (h : l ≠ []) : bincount l ≠ [] := by
  cases l with
  | nil => exact absurd rfl h
  | cons a t => simp [bincount]

lemma bincount_length {l : List Nat} (h : l ≠ []) :
    (bincount l).length = l.foldr max 0 + 1 := by
  cases l with
  | nil => exact absurd rfl h
  | cons a t => simp [bincount]

lemma bincount_get {l : List Nat} (h : l ≠ []) {v : Nat}
    (hv : v ≤ l.foldr max 0) :
    (bincount l).get? v = some (l.count v) := by
  cases l with
  | nil => exact absurd rfl h
  | cons a t =>
    show ((List.range ((a :: t).foldr max 0 + 1)).map
      (fun v => (a :: t).count v)).get? v = some ((a :: t).count v)
    rw [List.get?_map, List.get?_range (by omega)]
    rfl

lemma npArgmax_spec {l : List Nat} (h : l ≠ []) :
    ∃ i, npArgmax l = some i ∧ i < l.length ∧
      l.get? i = some (l.foldr max 0) := by
  have hmem : l.foldr max 0 ∈ l := foldr_max_mem l h
  have hlt : l.indexOf (l.foldr max 0) < l.length :=
    List.indexOf_lt_length.mpr hmem
  cases l with
  | nil => exact absurd rfl h
  | cons a t =>
    refine ⟨_, rfl, hlt, ?_⟩
    rw [List.get?_eq_get hlt]
    simp [List.get_eq_getElem, List.getElem_indexOf]

lemma majority_spec (labels : List Int) (l₀ : Int) (hl₀ : l₀ ∈ labels)
    (h0 : 0 ≤ l₀) :
    ∃ imax : ℕ, npArgmax (bincount (nonnegLabels labels)) = some imax ∧
      (imax : Int) ∈ labels ∧
      ∀ v : Int, 0 ≤ v → labels.count v ≤ labels.count (imax : Int) := by
  have hmemNN : l₀.toNat ∈ nonnegLabels labels := by
    simp only [nonnegLabels, List.mem_map]
    exact ⟨l₀, List.mem_filter.mpr ⟨hl₀, by simpa using h0⟩, rfl⟩
  have hNNne : nonnegLabels labels ≠ [] := List.ne_nil_of_mem hmemNN
  obtain ⟨i, hargmax, hilt, hget⟩ := npArgmax_spec (bincount_ne_nil hNNne)
  have hlen := bincount_length hNNne
  have hile : i ≤ (nonnegLabels labels).foldr max 0 := by omega
  have hci := bincount_get hNNne hile
  rw [hci] at hget
  have hcount_eq : (nonnegLabels labels).count i =
      (bincount (nonnegLabels labels)).foldr max 0 := by
    exact Option.some.inj hget
  have hmaxNat : ∀ v : Nat, (nonnegLabels labels).count v ≤
      (nonnegLabels labels).count i := by
    intro v
    by_cases hvle : v ≤ (nonnegLabels labels).foldr max 0
    · have hcv := bincount_get hNNne hvle
      have hmem' : (nonnegLabels labels).count v ∈ bincount (nonnegLabels labels) :=
        List.get?_mem hcv
      rw [hcount_eq]
      exact le_foldr_max _ _ hmem'
    · have : v ∉ nonnegLabels labels := fun hc =>
        hvle (le_foldr_max _ v hc)
      rw [List.count_eq_zero_of_not_mem this]
      exact Nat.zero_le _
  have hipos : 0 < (nonnegLabels labels).count i := by
    have := hmaxNat l₀.toNat
    have hp : 0 < (nonnegLabels labels).count l₀.toNat :=
      List.count_pos_iff.mpr hmemNN
    omega
  refine ⟨i, hargmax, ?_, ?_⟩
  · have : 0 < labels.count (i : Int) := by
      rw [← count_nonnegLabels]
      exact hipos
    exact List.count_pos_iff.mp this
  · intro v hv
    have hcast : ((v.toNat : Nat) : Int) = v := Int.toNat_of_nonneg hv
    calc labels.count v = (nonnegLabels labels).count v.toNat := by
          rw [count_nonnegLabels, hcast]
      _ ≤ (nonnegLabels labels).count i := hmaxNat v.toNat
      _ = labels.count (i : Int) := count_nonnegLabels labels i

/-- Demonstration store with three sensors, for the tagging evidence. -/
def demoStoreB : List Sensor :=
  [⟨[20], [1], [false]⟩, ⟨[30], [2], [false]⟩, ⟨[5], [3], [false]⟩]

/-- C1: code-bug evidence.  On labels `[0, -1, 0]` over `demoStoreB` with
tightened left bound 10, the majority label is computed exactly as the claim
states (`imax = 0`, the first non-negative label of maximal count), but
tagging the noise-labelled second sensor executes `t.outlier[ix] = 1` — an
attribute the `Sensor` class never initialises — so the tagging step raises
an uncaught `AttributeError` (`none`) instead of applying
`markAnomalous(sensorId, tl)` to the non-majority sensors, and the third
sensor is never processed. -/
theorem update_outlier_triggers_crashes_marking :
    npArgmax (bincount (nonnegLabels [0, -1, 0])) = some 0 ∧
    update_outlier_triggers [0, -1, 0] 10 demoStoreB = none :=
  ⟨by decide, by decide⟩

/-! ### The marking walk crashes instead of setting flags (C3) -/

/-- C3: code-bug evidence.  The marking walk never sets an anomaly flag:
when it visits at least one sample (a sample with timestamp beyond `tl` at
the end of the series) its first flag write raises `AttributeError`
(`none`); when it visits none, the sensor comes back unchanged with its
flags untouched; and a detection cycle whose labels tag such a sensor
crashes the whole run (`runOps = none`) instead of monotonically setting
anomaly flags as the claim states. -/
theorem markAnomalous_attribute_crash :
    (⟨[30], [2], [false]⟩ : Sensor).markAnomalous 10 = none ∧
    (⟨[5], [2], [false]⟩ : Sensor).markAnomalous 10 =
      some ⟨[5], [2], [false]⟩ ∧
    runOps [⟨[0, 5, 10], [1, 1, 1], [false, false, false]⟩,
            ⟨[0, 5, 30], [2, 2, 2], [false, false, false]⟩]
      [.detect (fun _ => [0, -1]) 35 36] = none :=
  ⟨by decide, by decide, by decide⟩

/-! ### The adaptive epsilon estimator (C9, C10) -/

lemma colMedian_length (X : List (List ℝ)) :
    (colMedian X).length = (X.headD []).length := by
  simp [colMedian]

/-- C9: for every rectangular feature matrix with at least one row, the `eps`
passed to DBSCAN — `dynamic_epsilon(rey) * threshold_modifier` — equals the
spec's clustering radius: the scale factor times the median over sensor rows
of the Euclidean distance, over all columns, to the column-wise median. -/
theorem cluster_eps_is_scaled_median_distance
    (X : List (List ℝ)) (_hrow : 0 < X.length)
    (hrect : ∀ y ∈ X, y.length = (X.headD []).length) :
    clusterEps X = specClusteringRadius X := by
  simp only [clusterEps, dynamic_epsilon, specClusteringRadius]
  rw [mul_comm]
  congr 2
  apply List.map_congr_left
  intro y hy
  rw [hrect y hy, ← colMedian_length]

/-- Witness for C9 at the one-row matrix `[[1]]`. -/
theorem cluster_eps_is_scaled_median_distance_witness :
    clusterEps [[(1 : ℝ)]] = specClusteringRadius [[(1 : ℝ)]] :=
  cluster_eps_is_scaled_median_distance [[(1 : ℝ)]] (by decide) (by decide)

lemma npMedian_perm {l l' : List ℝ} (h : l.Perm l') :
    npMedian l = npMedian l' := by
  unfold npMedian
  have hlen := h.length_eq
  have hsort : l.insertionSort (· ≤ ·) = l'.insertionSort (· ≤ ·) :=
    List.eq_of_perm_of_sorted
      ((List.perm_insertionSort _ l).trans
        (h.trans (List.perm_insertionSort _ l').symm))
      (List.sorted_insertionSort _ l) (List.sorted_insertionSort _ l')
  rw [hlen, hsort]

lemma colMedian_perm {X X' : List (List ℝ)} (h : X.Perm X')
    (hlen : (X.headD []).length = (X'.headD []).length) :
    colMedian X = colMedian X' := by
  unfold colMedian
  rw [hlen]
  apply List.map_congr_left
  intro k _
  exact npMedian_perm (h.map _)

/-- C10: the epsilon estimator is permutation-invariant in the sensors: for a
rectangular feature matrix, reordering the rows changes neither the
column-wise median nor the median of the distance list. -/
theorem dynamic_epsilon_perm_invariant
    (X X' : List (List ℝ))
    (hrect : ∀ y ∈ X, y.length = (X.headD []).length)
    (hperm : X.Perm X') :
    dynamic_epsilon X' = dynamic_epsilon X := by
  rcases hX : X with _ | ⟨y0, ys⟩
  · subst hX
    rw [hperm.symm.eq_nil]
  · have hX'ne : X' ≠ [] := by
      intro hc
      rw [hc] at hperm
      rw [hperm.eq_nil] at hX
      exact absurd hX (by simp)
    subst hX
    have hhead' : (X'.headD []).length = ((y0 :: ys).headD []).length := by
      cases hX' : X' with
      | nil => exact absurd hX' hX'ne
      | cons z zs =>
        have hz : z ∈ y0 :: ys := hperm.symm.subset (by rw [hX']; exact List.mem_cons_self z zs)
        simpa using hrect z hz
    have hm : colMedian X' = colMedian (y0 :: ys) :=
      colMedian_perm hperm.symm hhead'
    simp only [dynamic_epsilon]
    rw [hm]
    exact npMedian_perm (hperm.symm.map _)

/-- Witness for C10: swapping the two rows of `[[1], [2]]` leaves the
estimator unchanged. -/
theorem dynamic_epsilon_perm_invariant_witness :
    dynamic_epsilon [[(2 : ℝ)], [(1 : ℝ)]] = dynamic_epsilon [[(1 : ℝ)], [(2 : ℝ)]] :=
  dynamic_epsilon_perm_invariant [[(1 : ℝ)], [(2 : ℝ)]] [[(2 : ℝ)], [(1 : ℝ)]]
    (by decide) (List.Perm.swap [(2 : ℝ)] [(1 : ℝ)] [])

end OutlierDet
